import Mathlib

/-!
# Verification of `lcoreapi` (`lcoreapi/api.py`)

A shallow embedding of the `lcoreapi` HTTP client library, together with
theorems settling the specification claims about it.

Modelling conventions:
* Python `datetime` values produced by `strptime` are naive timestamps,
  modelled by the `DT` structure of numeric fields.
* Python strings are modelled by `String` / `List Char`; `str.replace` is
  modelled by the literal left-to-right scan `repl` on character lists.
* `datetime.strptime` against the four fixed format strings of `parse_date`
  is modelled by a deterministic matcher that follows CPython's `_strptime`
  regexes for `%Y %m %d %H %M %S %f` and its case-insensitive literal
  matching (so `t`/`z` are accepted for the literals `T`/`Z`).  Matching is
  over the ASCII digits `0`-`9`; CPython's acceptance of other Unicode
  decimal digits is outside the modelled input alphabet.  Regex matches that
  CPython's `datetime` constructor then rejects (second 60/61, day out of
  range for the month, year 0) are modelled as match failures, which is
  observationally identical: both surface as `ValueError` in `strptime` and
  `parse_date` only distinguishes success from `ValueError`.
* Exceptions are modelled with `Except String`; the error payload carries the
  exception kind/message.
-/

/-- A naive timestamp as produced by `datetime.strptime` (no timezone:
all four formats of `parse_date` contain `Z` only as a literal character). -/
structure DT where
  year : Nat
  month : Nat
  day : Nat
  hour : Nat
  minute : Nat
  second : Nat
  micro : Nat
deriving DecidableEq, Repr

/-- Leap-year test, as in Python's `calendar`/`datetime` validation. -/
def isLeap (y : Nat) : Bool := y % 4 == 0 && (y % 100 != 0 || y % 400 == 0)

/-- Number of days of a month, as validated by the `datetime` constructor. -/
def daysInMonth (y m : Nat) : Nat :=
  if m = 2 then (if isLeap y then 29 else 28)
  else if m = 4 ∨ m = 6 ∨ m = 9 ∨ m = 11 then 30
  else 31

/-- Digit test for the `\d` character class restricted to ASCII. -/
def isDig (c : Char) : Bool := '0' ≤ c && c ≤ '9'

/-- Numeric value of an ASCII digit. -/
def dval (c : Char) : Nat := c.toNat - 48

/-- Case-insensitive literal match, as CPython's `_strptime` compiles the
format into a regex with `re.IGNORECASE`. -/
def matchesLit (pat c : Char) : Bool := c == pat || c.toLower == pat.toLower

/-- One token of a `strptime` format string: a literal character, a numeric
field matched by a 1-or-2 digit regex alternation (with separate validity
ranges for the two-digit and the one-digit spellings), the 4-digit `%Y`
field, or the 1-to-6-digit `%f` field. -/
inductive Tok where
  | lit (c : Char)
  | num2 (v2 : Nat → Bool) (v1 : Nat → Bool)
  | year
  | micro

/-- Run a single token against the input, returning the numeric value read
(0 for literals) and the remaining input.  For `num2`, CPython's regex
alternations (e.g. `1[0-2]|0[1-9]|[1-9]` for `%m`) combined with the
following literal amount to: if two digits are present they must form a
valid two-digit spelling, otherwise a single digit must be a valid
one-digit spelling. -/
def runTok : Tok → List Char → Option (Nat × List Char)
  | .lit p, c :: r => if matchesLit p c then some (0, r) else none
  | .lit _, [] => none
  | .num2 v2 v1, a :: b :: r =>
    if isDig a then
      if isDig b then
        let v := 10 * dval a + dval b
        if v2 v then some (v, r) else none
      else if v1 (dval a) then some (dval a, b :: r) else none
    else none
  | .num2 _ v1, [a] => if isDig a && v1 (dval a) then some (dval a, []) else none
  | .num2 _ _, [] => none
  | .year, a :: b :: c :: d :: r =>
    if isDig a && isDig b && isDig c && isDig d then
      some (1000 * dval a + 100 * dval b + 10 * dval c + dval d, r)
    else none
  | .year, _ => none
  | .micro, l =>
    let ds := l.takeWhile isDig
    if 1 ≤ ds.length && ds.length ≤ 6 then
      some ((ds.foldl (fun acc c => 10 * acc + dval c) 0) * 10 ^ (6 - ds.length),
            l.dropWhile isDig)
    else none

/-- Run a token list, collecting the numeric values of non-literal tokens. -/
def runToks : List Tok → List Char → Option (List Nat × List Char)
  | [], l => some ([], l)
  | t :: ts, l =>
    match runTok t l with
    | none => none
    | some (v, l') =>
      match runToks ts l' with
      | none => none
      | some (vs, l'') =>
        match t with
        | .lit _ => some (vs, l'')
        | _ => some (v :: vs, l'')

/-- Two-digit spellings accepted for `%m`: `1[0-2]|0[1-9]` (1-12, not `00`). -/
def mo2 (v : Nat) : Bool := 1 ≤ v && v ≤ 12
/-- One-digit spellings accepted for `%m`: `[1-9]`. -/
def mo1 (v : Nat) : Bool := 1 ≤ v && v ≤ 9
/-- Two-digit spellings accepted for `%d`: `3[01]|[12]\d|0[1-9]`. -/
def dy2 (v : Nat) : Bool := 1 ≤ v && v ≤ 31
/-- Two-digit spellings accepted for `%H`: `2[0-3]|[0-1]\d`. -/
def hr2 (v : Nat) : Bool := v ≤ 23
/-- One-digit spellings for `%H`, `%M`, `%S`: any `\d`. -/
def any1 (v : Nat) : Bool := v ≤ 9
/-- Two-digit spellings accepted for `%M`: `[0-5]\d`. -/
def mi2 (v : Nat) : Bool := v ≤ 59
/-- Two-digit spellings accepted for `%S`: `6[0-1]|[0-5]\d` (leap seconds
pass the regex and are rejected by the `datetime` constructor below). -/
def se2 (v : Nat) : Bool := v ≤ 61

/-- The tokens shared by all four formats of `parse_date`:
`%Y-%m-%dT%H:%M:%S`, plus `.%f` when `micro` is set. -/
def baseToks (micro : Bool) : List Tok :=
  [.year, .lit '-', .num2 mo2 mo1, .lit '-', .num2 dy2 mo1, .lit 'T',
   .num2 hr2 any1, .lit ':', .num2 mi2 any1, .lit ':', .num2 se2 any1]
  ++ (if micro then [.lit '.', .micro] else [])

/-- Token list of a `parse_date` format: the base, plus the literal `Z`. -/
def fmtToks (micro z : Bool) : List Tok :=
  baseToks micro ++ (if z then [.lit 'Z'] else [])

/-- Validation performed by the `datetime` constructor after the regex
match: year at least 1, day within the month, second at most 59. -/
def mkDT (y mo d h mi s f : Nat) : Option DT :=
  if 1 ≤ y ∧ d ≤ daysInMonth y mo ∧ s ≤ 59 then some ⟨y, mo, d, h, mi, s, f⟩
  else none

/-- `datetime.strptime` against one of the four formats: the regex must
consume the whole string, then the `datetime` constructor validates. -/
def fmtParse (micro z : Bool) (l : List Char) : Option DT :=
  match runToks (fmtToks micro z) l with
  | some ([y, mo, d, h, mi, s], []) =>
    if micro then none else mkDT y mo d h mi s 0
  | some ([y, mo, d, h, mi, s, f], []) =>
    if micro then mkDT y mo d h mi s f else none
  | _ => none

/-- The `for f in formats` loop of `parse_date`: try the four formats in
the fixed priority order (microseconds + Z), (no microseconds + Z),
(microseconds, no zone), (no microseconds, no zone). -/
def matchAny (l : List Char) : Option DT :=
  (fmtParse true true l) <|> (fmtParse false true l) <|>
    (fmtParse true false l) <|> (fmtParse false false l)

/-- The replaced pattern `+00:00` as a character list. -/
def pat : List Char := ['+', '0', '0', ':', '0', '0']

/-- Does the input start with the pattern `+00:00`? -/
def isPat (l : List Char) : Bool := l.take 6 == pat

/-- Python `s.replace('+00:00', 'Z')`: a single left-to-right scan replacing
every non-overlapping occurrence. -/
def repl : List Char → List Char
  | [] => []
  | c :: rest =>
    if isPat (c :: rest) then 'Z' :: repl (rest.drop 5) else c :: repl rest
termination_by l => l.length
decreasing_by
  · simp only [List.length_cons, List.length_drop]
    omega
  · simp

/-- `parse_date` from `lcoreapi/api.py`: `None` for a falsy (empty) string,
otherwise replace `+00:00` by `Z`, try the four formats in order, and raise
`ValueError` when none matches. -/
def parse_date (s : String) : Except String (Option DT) :=
  if s = "" then .ok none
  else
    match matchAny (repl s.data) with
    | some dt => .ok (some dt)
    | none => .error ("Unknown date format: " ++ s)

/-- The claim-side normalization: rewrite only a *trailing* `+00:00` to `Z`
(the claim's wording; the code replaces every occurrence, and the two are
proved to be interchangeable for format matching). -/
def replTrailing (l : List Char) : List Char :=
  if 6 ≤ l.length ∧ l.drop (l.length - 6) = pat then
    l.take (l.length - 6) ++ ['Z']
  else l

/-- The input segment consumed by a single token: a literal token consumes
one matching character, every other token consumes a nonempty run of
digits. -/
def TokSeg : Tok → List Char → Prop
  | .lit c, seg => ∃ c', seg = [c'] ∧ matchesLit c c' = true
  | _, seg => seg ≠ [] ∧ ∀ c ∈ seg, isDig c = true

/-- Decomposition of a consumed input into per-token segments. -/
inductive Segs : List Tok → List Char → Prop
  | nil : Segs [] []
  | cons (t : Tok) (ts : List Tok) (seg rest : List Char) :
      TokSeg t seg → Segs ts rest → Segs (t :: ts) (seg ++ rest)

theorem runTok_seg {t : Tok} {l r : List Char} {v : Nat}
    (h : runTok t l = some (v, r)) : ∃ seg, l = seg ++ r ∧ TokSeg t seg := by
  cases t with
  | lit p =>
    cases l with
    | nil => simp [runTok] at h
    | cons c rest =>
      simp only [runTok] at h
      split at h
      · rename_i hml
        cases h
        exact ⟨[c], rfl, c, rfl, hml⟩
      · cases h
  | num2 v2 v1 =>
    match l with
    | [] => simp [runTok] at h
    | [a] =>
      simp only [runTok] at h
      split at h
      · rename_i hcond
        cases h
        rw [Bool.and_eq_true] at hcond
        refine ⟨[a], rfl, by simp, ?_⟩
        intro c hc
        simp only [List.mem_singleton] at hc
        subst hc
        exact hcond.1
      · cases h
    | a :: b :: rest =>
      simp only [runTok] at h
      split at h
      · rename_i hda
        split at h
        · rename_i hdb
          split at h
          · cases h
            refine ⟨[a, b], rfl, by simp, ?_⟩
            intro c hc
            simp only [List.mem_cons, List.not_mem_nil, or_false] at hc
            rcases hc with rfl | rfl
            · exact hda
            · exact hdb
          · cases h
        · split at h
          · cases h
            refine ⟨[a], rfl, by simp, ?_⟩
            intro c hc
            simp only [List.mem_singleton] at hc
            subst hc
            exact hda
          · cases h
      · cases h
  | year =>
    match l with
    | [] => simp [runTok] at h
    | [a] => simp [runTok] at h
    | [a, b] => simp [runTok] at h
    | [a, b, c] => simp [runTok] at h
    | a :: b :: c :: d :: rest =>
      simp only [runTok] at h
      split at h
      · rename_i hd
        cases h
        rw [Bool.and_eq_true, Bool.and_eq_true, Bool.and_eq_true] at hd
        refine ⟨[a, b, c, d], rfl, by simp, ?_⟩
        intro x hx
        simp only [List.mem_cons, List.not_mem_nil, or_false] at hx
        rcases hx with rfl | rfl | rfl | rfl
        · exact hd.1.1.1
        · exact hd.1.1.2
        · exact hd.1.2
        · exact hd.2
      · cases h
  | micro =>
    simp only [runTok] at h
    split at h
    · rename_i hlen
      cases h
      rw [Bool.and_eq_true] at hlen
      refine ⟨l.takeWhile isDig, (List.takeWhile_append_dropWhile ..).symm, ?_, ?_⟩
      · intro hnil
        rw [hnil] at hlen
        simp at hlen
      · intro c hc
        exact List.mem_takeWhile_imp hc
    · cases h

theorem runToks_seg {ts : List Tok} {l r : List Char} {vs : List Nat}
    (h : runToks ts l = some (vs, r)) : ∃ u, l = u ++ r ∧ Segs ts u := by
  induction ts generalizing l vs with
  | nil =>
    simp only [runToks] at h
    cases h
    exact ⟨[], rfl, .nil⟩
  | cons t ts ih =>
    simp only [runToks] at h
    split at h
    · cases h
    · rename_i v l' h1
      split at h
      · cases h
      · rename_i vs' l'' h2
        have hr : l'' = r := by
          cases t <;> cases h <;> rfl
        subst hr
        obtain ⟨seg, rfl, hseg⟩ := runTok_seg h1
        obtain ⟨u, rfl, hsegs⟩ := ih h2
        exact ⟨seg ++ u, by simp, .cons _ _ _ _ hseg hsegs⟩

theorem Segs_mem {ts : List Tok} {l : List Char} (h : Segs ts l) {c : Char}
    (hc : c ∈ l) : isDig c = true ∨ ∃ p, Tok.lit p ∈ ts ∧ matchesLit p c = true := by
  induction h with
  | nil => simp at hc
  | cons t ts' seg rest hseg _ ih =>
    rcases List.mem_append.1 hc with hm | hm
    · cases t with
      | lit p =>
        obtain ⟨c', rfl, hml⟩ := hseg
        simp only [List.mem_singleton] at hm
        subst hm
        exact Or.inr ⟨p, by simp, hml⟩
      | num2 v2 v1 => exact Or.inl (hseg.2 c hm)
      | year => exact Or.inl (hseg.2 c hm)
      | micro => exact Or.inl (hseg.2 c hm)
    · rcases ih hm with hd | ⟨p, hp, hml⟩
      · exact Or.inl hd
      · exact Or.inr ⟨p, List.mem_cons_of_mem _ hp, hml⟩

/-- Splitting a segment decomposition along an append of token lists. -/
theorem Segs_append {ts1 ts2 : List Tok} {l : List Char}
    (h : Segs (ts1 ++ ts2) l) : ∃ u v, l = u ++ v ∧ Segs ts1 u ∧ Segs ts2 v := by
  induction ts1 generalizing l with
  | nil => exact ⟨[], l, rfl, .nil, h⟩
  | cons t ts ih =>
    cases h with
    | cons _ _ seg rest hseg hrest =>
      obtain ⟨u, v, rfl, h1, h2⟩ := ih hrest
      exact ⟨seg ++ u, v, by simp, .cons _ _ _ _ hseg h1, h2⟩

/-- The literal characters occurring in the base token list. -/
theorem lit_mem_base {micro : Bool} {p : Char} (h : Tok.lit p ∈ baseToks micro) :
    p = '-' ∨ p = ':' ∨ p = 'T' ∨ p = '.' := by
  cases micro <;> simp [baseToks] at h <;> tauto

/-- No character of a base-token segment is `+`, and none is `Z`
(`matchesLit` for the base literals accepts neither, and neither is a
digit). -/
theorem base_seg_not_plus_Z {micro : Bool} {l : List Char}
    (h : Segs (baseToks micro) l) {c : Char} (hc : c ∈ l) :
    c ≠ '+' ∧ c ≠ 'Z' := by
  rcases Segs_mem h hc with hd | ⟨p, hp, hml⟩
  · constructor <;> rintro rfl <;> simp [isDig] at hd
  · rcases lit_mem_base hp with rfl | rfl | rfl | rfl <;>
      constructor <;> rintro rfl <;> simp [matchesLit, Char.toLower] at hml


/-- The literal characters occurring in a full format token list. -/
theorem lit_mem_fmt {micro z : Bool} {p : Char} (h : Tok.lit p ∈ fmtToks micro z) :
    p = '-' ∨ p = ':' ∨ p = 'T' ∨ p = '.' ∨ p = 'Z' := by
  rw [fmtToks, List.mem_append] at h
  rcases h with h | h
  · rcases lit_mem_base h with h | h | h | h <;> tauto
  · cases z with
    | false => simp at h
    | true => simp at h; tauto

/-- A successful format match decomposes the whole input into segments. -/
theorem fmtParse_segs {micro z : Bool} {l : List Char} {dt : DT}
    (h : fmtParse micro z l = some dt) : Segs (fmtToks micro z) l := by
  unfold fmtParse at h
  split at h
  · rename_i heq
    obtain ⟨u, hu, hsegs⟩ := runToks_seg heq
    rw [List.append_nil] at hu
    exact hu ▸ hsegs
  · rename_i heq
    obtain ⟨u, hu, hsegs⟩ := runToks_seg heq
    rw [List.append_nil] at hu
    exact hu ▸ hsegs
  · cases h

/-- `+` never occurs in an input matched by one of the four formats. -/
theorem fmtParse_no_plus {micro z : Bool} {l : List Char} {dt : DT}
    (h : fmtParse micro z l = some dt) : '+' ∉ l := by
  intro hm
  rcases Segs_mem (fmtParse_segs h) hm with hd | ⟨p, hp, hml⟩
  · exact absurd hd (by decide)
  · rcases lit_mem_fmt hp with rfl | rfl | rfl | rfl | rfl <;>
      exact absurd hml (by decide)

/-- In an input matched by one of the four formats, an (uppercase) `Z` can
only be the final character. -/
theorem fmtParse_Z_final {micro z : Bool} {l : List Char} {dt : DT}
    (h : fmtParse micro z l = some dt) {l1 l2 : List Char}
    (hl : l = l1 ++ 'Z' :: l2) : l2 = [] := by
  have hsegs := fmtParse_segs h
  cases z with
  | false =>
    exfalso
    have hz : ('Z' : Char) ∈ l := hl ▸ List.mem_append_right l1 (List.mem_cons_self ..)
    rcases Segs_mem hsegs hz with hd | ⟨p, hp, hml⟩
    · exact absurd hd (by decide)
    · have hp' : Tok.lit p ∈ baseToks micro := by simpa [fmtToks] using hp
      rcases lit_mem_base hp' with rfl | rfl | rfl | rfl <;>
        exact absurd hml (by decide)
  | true =>
    rw [show fmtToks micro true = baseToks micro ++ [.lit 'Z'] from by simp [fmtToks]]
      at hsegs
    obtain ⟨u, v, huv, hbase, hzseg⟩ := Segs_append hsegs
    cases hzseg with
    | cons _ _ seg rest hseg hrest =>
      cases hrest
      obtain ⟨c', rfl, hml⟩ := hseg
      have hu : ('Z' : Char) ∉ u := fun hm => (base_seg_not_plus_Z hbase hm).2 rfl
      rcases List.eq_nil_or_concat l2 with rfl | ⟨l2', e, hl2⟩
      · rfl
      · exfalso
        rw [hl2] at hl
        rw [hl, List.append_nil] at huv
        have h2 : (l1 ++ 'Z' :: l2') ++ [e] = u ++ [c'] := by
          rw [← huv]; simp
        have h3 := List.append_inj' h2 rfl
        exact hu (h3.1 ▸ List.mem_append_right l1 (List.mem_cons_self ..))

/-- A successful `matchAny` comes from one of the four formats. -/
theorem matchAny_cases {l : List Char} {dt : DT} (h : matchAny l = some dt) :
    ∃ micro z, fmtParse micro z l = some dt := by
  unfold matchAny at h
  cases h1 : fmtParse true true l with
  | some d => rw [h1] at h; simp at h; exact ⟨true, true, by rw [h1, h]⟩
  | none =>
    rw [h1, Option.none_orElse] at h
    cases h2 : fmtParse false true l with
    | some d => rw [h2] at h; simp at h; exact ⟨false, true, by rw [h2, h]⟩
    | none =>
      rw [h2, Option.none_orElse] at h
      cases h3 : fmtParse true false l with
      | some d => rw [h3] at h; simp at h; exact ⟨true, false, by rw [h3, h]⟩
      | none =>
        rw [h3, Option.none_orElse] at h
        exact ⟨false, false, h⟩

theorem matchAny_no_plus {l : List Char} {dt : DT} (h : matchAny l = some dt) :
    '+' ∉ l := by
  obtain ⟨micro, z, hf⟩ := matchAny_cases h
  exact fmtParse_no_plus hf

theorem matchAny_Z_final {l : List Char} {dt : DT} (h : matchAny l = some dt)
    {l1 l2 : List Char} (hl : l = l1 ++ 'Z' :: l2) : l2 = [] := by
  obtain ⟨micro, z, hf⟩ := matchAny_cases h
  exact fmtParse_Z_final hf hl

/-- A string containing `+` matches none of the formats. -/
theorem matchAny_none_of_plus {l : List Char} (h : '+' ∈ l) : matchAny l = none := by
  cases hM : matchAny l with
  | none => rfl
  | some dt => exact absurd h (matchAny_no_plus hM)

/-- A string with an uppercase `Z` before the last position matches none of
the formats. -/
theorem matchAny_none_of_midZ {l1 l2 : List Char} (h2 : l2 ≠ []) :
    matchAny (l1 ++ 'Z' :: l2) = none := by
  cases hM : matchAny (l1 ++ 'Z' :: l2) with
  | none => rfl
  | some dt => exact absurd (matchAny_Z_final hM rfl) h2

theorem isPat_iff {l : List Char} : isPat l = true ↔ ∃ r, l = pat ++ r := by
  unfold isPat
  rw [beq_iff_eq]
  constructor
  · intro h
    exact ⟨l.drop 6, by conv_lhs => rw [← List.take_append_drop 6 l, h]⟩
  · rintro ⟨r, rfl⟩
    simp [pat]

theorem repl_nil : repl [] = [] := by simp [repl]

theorem repl_cons (c : Char) (r : List Char) :
    repl (c :: r) = if isPat (c :: r) then 'Z' :: repl (r.drop 5) else c :: repl r := by
  rw [repl]

theorem repl_pat (q : List Char) : repl (pat ++ q) = 'Z' :: repl q := by
  have h1 : pat ++ q = '+' :: ('0' :: '0' :: ':' :: '0' :: '0' :: q) := rfl
  rw [h1, repl_cons]
  rw [if_pos (isPat_iff.2 ⟨q, h1.symm⟩)]
  rfl

theorem repl_not_pat {c : Char} {r : List Char} (h : isPat (c :: r) = false) :
    repl (c :: r) = c :: repl r := by
  rw [repl_cons, h]
  simp

theorem repl_append_of_no_plus {p : List Char} (x : List Char) (h : '+' ∉ p) :
    repl (p ++ x) = p ++ repl x := by
  induction p with
  | nil => simp
  | cons c p' ih =>
    have hc : c ≠ '+' := fun hcc => h (hcc ▸ List.mem_cons_self ..)
    have hip : isPat (c :: (p' ++ x)) = false := by
      cases hi : isPat (c :: (p' ++ x)) with
      | false => rfl
      | true =>
        obtain ⟨r, hr⟩ := isPat_iff.1 hi
        exact absurd (List.cons.injEq .. ▸ hr).1 hc
    rw [List.cons_append, repl_not_pat hip,
        ih (fun hm => h (List.mem_cons_of_mem _ hm))]
    rfl

theorem repl_of_no_plus {l : List Char} (h : '+' ∉ l) : repl l = l := by
  have := repl_append_of_no_plus [] h
  simpa [repl_nil] using this

theorem repl_eq_nil {l : List Char} (h : repl l = []) : l = [] := by
  cases l with
  | nil => rfl
  | cons c r =>
    rw [repl_cons] at h
    split at h <;> cases h

theorem exists_first_plus {l : List Char} (h : '+' ∈ l) :
    ∃ p q, l = p ++ '+' :: q ∧ '+' ∉ p := by
  induction l with
  | nil => cases h
  | cons c r ih =>
    by_cases hc : c = '+'
    · exact ⟨[], r, by rw [hc]; rfl, by simp⟩
    · have hr : '+' ∈ r := by
        rcases List.mem_cons.1 h with h | h
        · exact absurd h.symm hc
        · exact h
      obtain ⟨p, q, rfl, hp⟩ := ih hr
      refine ⟨c :: p, q, rfl, ?_⟩
      intro hm
      rcases List.mem_cons.1 hm with hm | hm
      · exact hc hm.symm
      · exact hp hm

theorem first_plus_unique {p q p' q' : List Char}
    (h : p ++ '+' :: q = p' ++ '+' :: q') (hp : '+' ∉ p) (hp' : '+' ∉ p') :
    p = p' ∧ q = q' := by
  induction p generalizing p' with
  | nil =>
    cases p' with
    | nil =>
      simp only [List.nil_append, List.cons.injEq] at h
      exact ⟨rfl, h.2⟩
    | cons c p'' =>
      simp only [List.nil_append, List.cons_append, List.cons.injEq] at h
      exact absurd (h.1 ▸ List.mem_cons_self c p'') hp'
  | cons c p ih =>
    cases p' with
    | nil =>
      simp only [List.cons_append, List.nil_append, List.cons.injEq] at h
      exact absurd (h.1.symm ▸ List.mem_cons_self c p) hp
    | cons c' p'' =>
      simp only [List.cons_append, List.cons.injEq] at h
      obtain ⟨rfl, h2⟩ := h
      obtain ⟨rfl, rfl⟩ := ih h2 (fun hm => hp (List.mem_cons_of_mem _ hm))
        (fun hm => hp' (List.mem_cons_of_mem _ hm))
      exact ⟨rfl, rfl⟩

theorem endsPat_iff {l : List Char} :
    (6 ≤ l.length ∧ l.drop (l.length - 6) = pat) ↔ ∃ p, l = p ++ pat := by
  constructor
  · rintro ⟨hlen, hdrop⟩
    exact ⟨l.take (l.length - 6), by conv_lhs => rw [← List.take_append_drop (l.length - 6) l, hdrop]⟩
  · rintro ⟨p, rfl⟩
    have hl : (p ++ pat).length = p.length + 6 := by simp [pat]
    refine ⟨by omega, ?_⟩
    rw [hl, show p.length + 6 - 6 = p.length from by omega, List.drop_left]

theorem replTrailing_pat (p : List Char) : replTrailing (p ++ pat) = p ++ ['Z'] := by
  unfold replTrailing
  rw [if_pos (endsPat_iff.2 ⟨p, rfl⟩)]
  have hl : (p ++ pat).length = p.length + 6 := by simp [pat]
  rw [hl, show p.length + 6 - 6 = p.length from by omega, List.take_left]

theorem replTrailing_no {l : List Char} (h : ¬ ∃ p, l = p ++ pat) :
    replTrailing l = l := by
  unfold replTrailing
  rw [if_neg (fun hc => h (endsPat_iff.1 hc))]

/-- `+` occurs in any string ending with the pattern. -/
theorem plus_mem_of_ends_pat {l p : List Char} (h : l = p ++ pat) : '+' ∈ l := by
  rw [h]
  exact List.mem_append_right p (by simp [pat])

/-- Replacing every occurrence of `+00:00` (what the code does) and
normalizing only a trailing `+00:00` (the claim's wording) are
interchangeable in front of the format matcher: a `Z` introduced anywhere
but the end, or a remaining `+`, kills every format. -/
theorem matchAny_repl_eq (l : List Char) :
    matchAny (repl l) = matchAny (replTrailing l) := by
  by_cases hp : '+' ∈ l
  · obtain ⟨p, q, rfl, hpf⟩ := exists_first_plus hp
    by_cases hq : ∃ q', q = '0' :: '0' :: ':' :: '0' :: '0' :: q'
    · obtain ⟨q', rfl⟩ := hq
      have hform : p ++ '+' :: ('0' :: '0' :: ':' :: '0' :: '0' :: q')
          = p ++ pat ++ q' := by simp [pat]
      rw [hform]
      have hrepl : repl (p ++ pat ++ q') = p ++ 'Z' :: repl q' := by
        rw [List.append_assoc, repl_append_of_no_plus _ hpf, repl_pat]
      rcases eq_or_ne q' [] with rfl | hq'
      · rw [List.append_nil] at hrepl ⊢
        rw [hrepl, replTrailing_pat, repl_nil]
      · have hleft : matchAny (repl (p ++ pat ++ q')) = none := by
          rw [hrepl]
          cases hM : matchAny (p ++ 'Z' :: repl q') with
          | none => rfl
          | some dt => exact absurd (repl_eq_nil (matchAny_Z_final hM rfl)) hq'
        have hright : matchAny (replTrailing (p ++ pat ++ q')) = none := by
          by_cases hend : ∃ p2, p ++ pat ++ q' = p2 ++ pat
          · obtain ⟨p2, hl2⟩ := hend
            by_cases hp2 : '+' ∈ p2
            · rw [hl2, replTrailing_pat]
              exact matchAny_none_of_plus (List.mem_append_left _ hp2)
            · exfalso
              have heq2 : p ++ '+' :: ('0' :: '0' :: ':' :: '0' :: '0' :: q')
                  = p2 ++ '+' :: ('0' :: '0' :: ':' :: '0' :: '0' :: ([] : List Char)) := by
                rw [hform, hl2]
                rfl
              obtain ⟨rfl, htail⟩ := first_plus_unique heq2 hpf hp2
              simp at htail
              exact hq' htail
          · rw [replTrailing_no hend]
            exact matchAny_none_of_plus
              (List.mem_append_left _ (List.mem_append_right p (by simp [pat])))
        rw [hleft, hright]
    · have hip : isPat ('+' :: q) = false := by
        cases hi : isPat ('+' :: q) with
        | false => rfl
        | true =>
          obtain ⟨r, hr⟩ := isPat_iff.1 hi
          simp only [pat, List.cons_append, List.nil_append, List.cons.injEq,
            true_and] at hr
          exact absurd ⟨r, hr⟩ hq
      have hrepl : repl (p ++ '+' :: q) = p ++ '+' :: repl q := by
        rw [repl_append_of_no_plus _ hpf, repl_not_pat hip]
      have hleft : matchAny (repl (p ++ '+' :: q)) = none := by
        rw [hrepl]
        exact matchAny_none_of_plus (List.mem_append_right _ (List.mem_cons_self ..))
      have hright : matchAny (replTrailing (p ++ '+' :: q)) = none := by
        by_cases hend : ∃ p2, p ++ '+' :: q = p2 ++ pat
        · obtain ⟨p2, hl2⟩ := hend
          by_cases hp2 : '+' ∈ p2
          · rw [hl2, replTrailing_pat]
            exact matchAny_none_of_plus (List.mem_append_left _ hp2)
          · exfalso
            have heq2 : p ++ '+' :: q
                = p2 ++ '+' :: ('0' :: '0' :: ':' :: '0' :: '0' :: ([] : List Char)) := hl2
            obtain ⟨rfl, htail⟩ := first_plus_unique heq2 hpf hp2
            exact hq ⟨[], htail⟩
        · rw [replTrailing_no hend]
          exact matchAny_none_of_plus (List.mem_append_right _ (List.mem_cons_self ..))
      rw [hleft, hright]
  · rw [repl_of_no_plus hp,
        replTrailing_no (fun ⟨p2, hl2⟩ => hp (plus_mem_of_ends_pat hl2))]

/-- JSON values as decoded from a response body (numbers restricted to
integers; no claim exercises float-typed fields). -/
inductive JVal where
  | null
  | jbool (b : Bool)
  | jint (n : Int)
  | jstr (s : String)
  | jarr (items : List JVal)
  | jobj (fields : List (String × JVal))
deriving Repr

/-- Python values held by a `Resource` after the `__init__` preprocessing.
`pres` is a `Resource` (a `dict` subclass carrying its private loaded
flag); `pdict` is a plain, unwrapped `dict`; `pdate` a `datetime` produced
by `parse_date`. -/
inductive PVal where
  | null
  | pbool (b : Bool)
  | pint (n : Int)
  | pstr (s : String)
  | pdate (d : DT)
  | parr (items : List PVal)
  | pres (fields : List (String × PVal)) (loaded : Bool)
  | pdict (fields : List (String × PVal))
deriving Repr

/-- Python falsiness (`not s`) of a JSON value. -/
def jfalsy : JVal → Bool
  | .null => true
  | .jbool b => !b
  | .jint n => n == 0
  | .jstr s => s == ""
  | .jarr items => items.isEmpty
  | .jobj fields => fields.isEmpty

/-- `parse_date` applied to an arbitrary JSON field value: falsy values
yield `None`; non-falsy strings are parsed; any other non-falsy value
crashes on `.replace` with `AttributeError`. -/
def parseDateJ : JVal → Except String (Option DT)
  | v =>
    if jfalsy v then .ok none
    else
      match v with
      | .jstr s => parse_date s
      | _ => .error "AttributeError: replace"

mutual
/-- Identity embedding of a JSON value the preprocessing leaves untouched:
a raw JSON object stays a plain `dict` (`pdict`), not a `Resource`. -/
def toP : JVal → PVal
  | .null => .null
  | .jbool b => .pbool b
  | .jint n => .pint n
  | .jstr s => .pstr s
  | .jarr items => .parr (toPList items)
  | .jobj fields => .pdict (toPFields fields)

def toPList : List JVal → List PVal
  | [] => []
  | v :: rest => toP v :: toPList rest

def toPFields : List (String × JVal) → List (String × PVal)
  | [] => []
  | (k, v) :: rest => (k, toP v) :: toPFields rest
end

/-- Python `str.startswith`, via the character lists. -/
def strStartsWith (s p : String) : Bool := p.data.isPrefixOf s.data

/-- Python `str.endswith`, via the character lists. -/
def strEndsWith (s p : String) : Bool := p.data.isSuffixOf s.data

/-- Python `c in s` for a single character. -/
def strContains (s : String) (c : Char) : Bool := s.data.contains c

/-- Date-key test of `Resource.__init__`:
`k.endswith('_date') or k == 'date'`. -/
def isDateKey (k : String) : Bool := strEndsWith k "_date" || k == "date"

/-- The date-key branch of the preprocessing loop: store the `parse_date`
result (`None` or a timestamp); a `ValueError`/`AttributeError` propagates
and aborts construction. -/
def wrapDate (v : JVal) : Except String PVal :=
  match parseDateJ v with
  | .error e => .error e
  | .ok none => .ok .null
  | .ok (some dt) => .ok (.pdate dt)

mutual
/-- The preprocessing loop of `Resource.__init__` over the fields of a JSON
object body, in field order; the first exception propagates. -/
def wrapFields : List (String × JVal) → Except String (List (String × PVal))
  | [] => .ok []
  | (k, v) :: rest =>
    match wrapField k v with
    | .error e => .error e
    | .ok w =>
      match wrapFields rest with
      | .error e => .error e
      | .ok rest' => .ok ((k, w) :: rest')

/-- The body of one iteration of the preprocessing loop: what the field
named `k` with decoded JSON value `v` is stored as — the `parse_date`
result for date keys, a fresh `Resource` for object values, element-wise
wrapping for array values, the value itself otherwise. -/
def wrapField (k : String) (v : JVal) : Except String PVal :=
  match isDateKey k, v with
  | true, v => wrapDate v
  | false, .jobj fs =>
    match wrapFields fs with
    | .error e => .error e
    | .ok out => .ok (.pres out false)
  | false, .jarr items =>
    match wrapArr items with
    | .error e => .error e
    | .ok out => .ok (.parr out)
  | false, other => .ok (toP other)

/-- One element of a list-valued field: only `dict` elements are wrapped
into `Resource`s. -/
def wrapElem (v : JVal) : Except String PVal :=
  match v with
  | .jobj fs =>
    match wrapFields fs with
    | .error e => .error e
    | .ok out => .ok (.pres out false)
  | other => .ok (toP other)

/-- The inner loop over a list-valued field. -/
def wrapArr : List JVal → Except String (List PVal)
  | [] => .ok []
  | v :: rest =>
    match wrapElem v with
    | .error e => .error e
    | .ok w =>
      match wrapArr rest with
      | .error e => .error e
      | .ok rest' => .ok (w :: rest')
end

/-- `Resource(api, data)` for a JSON object body: preprocess the fields;
the fresh `Resource` carries loaded flag `False`. -/
def resourceOfJson (fields : List (String × JVal)) : Except String PVal :=
  (wrapFields fields).map (fun out => .pres out false)

/-- Mutable state of one `Resource` instance: the underlying `dict` content
and the private `__loaded` flag. -/
structure ResState where
  fields : List (String × PVal)
  loaded : Bool
deriving Repr

/-- Python `dict` lookup (`dict.__getitem__`), `none` for `KeyError`. -/
def plookup : List (String × PVal) → String → Option PVal
  | [], _ => none
  | (k, v) :: rest, key => if k == key then some v else plookup rest key

/-- Python `dict.get(key)`: the stored value, or `None`. -/
def pyGet (fields : List (String × PVal)) (k : String) : PVal :=
  (plookup fields k).getD .null

/-- Python `dict.get(key, default)`. -/
def pyGetD (fields : List (String × PVal)) (k : String) (dflt : PVal) : PVal :=
  (plookup fields k).getD dflt

/-- Python `dict` item assignment: overwrite in place, or append. -/
def setKV : List (String × PVal) → String → PVal → List (String × PVal)
  | [], key, v => [(key, v)]
  | (k, w) :: rest, key, v =>
    if k == key then (k, v) :: rest else (k, w) :: setKV rest key v

/-- Python `dict.update`. -/
def updKV (fields new : List (String × PVal)) : List (String × PVal) :=
  new.foldl (fun acc kv => setKV acc kv.1 kv.2) fields

/-- Python truthiness of a preprocessed value. -/
def truthyP : PVal → Bool
  | .null => false
  | .pbool b => b
  | .pint n => n != 0
  | .pstr s => s != ""
  | .pdate _ => true
  | .parr items => !items.isEmpty
  | .pres fields _ => !fields.isEmpty
  | .pdict fields => !fields.isEmpty

/-- The stub test of `Resource.__getitem__`:
`set(self.keys()).issubset(set(('object', 'href', 'id'))) and
self.get('href')`. -/
def stubCond (fields : List (String × PVal)) : Bool :=
  fields.all (fun kv => kv.1 == "object" || kv.1 == "href" || kv.1 == "id")
    && truthyP (pyGet fields "href")

/-- Outcome of `Resource.__getitem__`: a returned value (Python `None` is
`.val .null` — also what the fall-through `return None` of the `except`
block yields), a raised `KeyError`, or a propagated API exception. -/
inductive GetOutcome where
  | val (v : PVal)
  | keyError (k : String)
  | apiError (e : String)
deriving Repr

/-- `Resource.__getitem__`, with the owning client's `api.get(href)`
abstracted as the oracle `fetch`, keyed by the `href` value, returning the
fetched body's fields or a raised `APIError`.  Returns the outcome, the
state of this `Resource` afterwards (Python mutates it in place), and
whether a fetch was attempted.  Note the two divergences from the spec,
both faithful to the code: when `api.get` raises, the exception propagates
*before* `self.__loaded = True` is reached, so the flag stays `False`; and
when the stub condition fails on a not-loaded `Resource`, control falls off
the end of the `except` block, returning `None` instead of re-raising. -/
def getitem (fetch : PVal → Except String (List (String × PVal)))
    (r : ResState) (key : String) : GetOutcome × ResState × Bool :=
  match plookup r.fields key with
  | some v => (.val v, r, false)
  | none =>
    if r.loaded then (.keyError key, r, false)
    else if stubCond r.fields then
      match fetch (pyGet r.fields "href") with
      | .error e => (.apiError e, r, true)
      | .ok new =>
        let fields' := updKV r.fields new
        match plookup fields' key with
        | some v => (.val v, ⟨fields', true⟩, true)
        | none => (.keyError key, ⟨fields', true⟩, true)
    else (.val .null, r, false)

/-- Which object the loop variable `o` of `list_iter` currently references:
`self` on the first iteration, afterwards the object stored in `self`'s
`next` field (the generator aliases that stored object, so hydration
mutating it persists in `self`'s fields). -/
inductive Cur where
  | slf
  | nxt
deriving Repr

/-- A `Resource` state seen as a value. -/
def resVal (r : ResState) : PVal := .pres r.fields r.loaded

/-- The `while o and o['items']` loop of `list_iter`, run for at most `fuel`
iterations (the Python generator is unbounded; exhausting the fuel returns
the finite prefix of items observed so far).  `o['items']` goes through the
full `Resource.__getitem__` semantics; `o = self.get('next')` at the end of
each iteration is a plain `dict.get` on `self` — exactly as in the code,
which reads `self.get('next')`, not `o.get('next')`.  A truthy non-dict
`o`, or a truthy non-list `o['items']` (which Python would subscript or
iterate, raising `TypeError`), is modelled as an error. -/
def listIterAux (fetch : PVal → Except String (List (String × PVal)))
    : Nat → ResState → Cur → Except String (List PVal)
  | 0, _, _ => .ok []
  | fuel + 1, selfR, cur =>
    let oV : PVal :=
      match cur with
      | .slf => resVal selfR
      | .nxt => pyGet selfR.fields "next"
    if truthyP oV = false then .ok []
    else
      match oV with
      | .pres fs ld =>
        match getitem fetch ⟨fs, ld⟩ "items" with
        | (.keyError k, _, _) => .error ("KeyError: " ++ k)
        | (.apiError e, _, _) => .error e
        | (.val itemsV, st2, _) =>
          let selfR' : ResState :=
            match cur with
            | .slf => st2
            | .nxt => ⟨setKV selfR.fields "next" (resVal st2), selfR.loaded⟩
          if truthyP itemsV = false then .ok []
          else
            match itemsV with
            | .parr items =>
              (listIterAux fetch fuel selfR' .nxt).map (fun tail => items ++ tail)
            | _ => .error "TypeError: not iterable"
      | _ => .error "TypeError: not subscriptable"

/-- Python `== 'list'` on a field value: string comparison, `False` for any
non-string value. -/
def isListTag : PVal → Bool
  | .pstr s => s == "list"
  | _ => false

/-- `Resource.list_iter`: `assert self.get('object') == 'list'`, then
iterate. -/
def list_iter (fetch : PVal → Except String (List (String × PVal)))
    (fuel : Nat) (selfR : ResState) : Except String (List PVal) :=
  if isListTag (pyGet selfR.fields "object") then
    listIterAux fetch fuel selfR .slf
  else .error "AssertionError"

/-- UTF-8 encoding of one character (as in Python `str.encode('utf-8')`,
which `urllib.parse.quote` applies to `str` inputs). -/
def utf8Char (c : Char) : List Nat :=
  let n := c.toNat
  if n < 128 then [n]
  else if n < 2048 then [192 + n / 64, 128 + n % 64]
  else if n < 65536 then [224 + n / 4096, 128 + (n / 64) % 64, 128 + n % 64]
  else [240 + n / 262144, 128 + (n / 4096) % 64, 128 + (n / 64) % 64, 128 + n % 64]

/-- UTF-8 bytes of a string. -/
def utf8Str (s : String) : List Nat := (s.data.map utf8Char).flatten

/-- Uppercase hexadecimal digit, as `urllib.parse.quote` emits. -/
def hexDig (n : Nat) : Char := if n < 10 then Char.ofNat (48 + n) else Char.ofNat (55 + n)

/-- Bytes left unescaped by `urllib.parse.quote` with its default
`safe='/'`: ASCII alphanumerics, `_ . - ~`, and `/`. -/
def quoteSafe (b : Nat) : Bool :=
  (48 ≤ b && b ≤ 57) || (65 ≤ b && b ≤ 90) || (97 ≤ b && b ≤ 122)
    || b == 95 || b == 46 || b == 45 || b == 126 || b == 47

/-- `urllib.parse.quote` on a byte sequence. -/
def pctEncode (bytes : List Nat) : String :=
  String.mk ((bytes.map (fun b =>
    if quoteSafe b then [Char.ofNat b]
    else ['%', hexDig (b / 16), hexDig (b % 16)])).flatten)

/-- The value types accepted by the query encoder `quote` (floats are
omitted: they take the same `str(v)` branch as ints and no claim exercises
them; any type outside this set makes the Python function fall through and
return `None`). -/
inductive QV where
  | qbool (b : Bool)
  | qint (n : Int)
  | qstr (s : String)
  | qbytes (bytes : List Nat)
  | qdatetime (d : DT)
deriving Repr

/-- `quote` from `lcoreapi/api.py`.  The `isinstance` chain tests `bool`
before `int` (in Python `bool` is a subclass of `int`).  The `datetime`
branch calls `v.utctimestamp()` — a method that does not exist on
`datetime` objects — so it raises `AttributeError` at runtime instead of
returning anything. -/
def quote : QV → Except String String
  | .qbool b => .ok (if b then "1" else "0")
  | .qint n => .ok (toString n)
  | .qstr s => .ok (pctEncode (utf8Str s))
  | .qbytes bytes => .ok (pctEncode bytes)
  | .qdatetime _ =>
    .error "AttributeError: datetime object has no attribute utctimestamp"

/-- The generator `k + '=' + quote(v) for k, v in sorted(filters.items())`
materialized in order; the first exception propagates. -/
def renderParams : List (String × QV) → Except String (List String)
  | [] => .ok []
  | (k, v) :: rest => do
    let q ← quote v
    let tail ← renderParams rest
    .ok ((k ++ "=" ++ q) :: tail)

/-- `sorted(filters.items())` — Python sorts pairs lexicographically, but
with distinct keys (guaranteed: they are `**kwargs` names) only the key
comparison is ever consulted, so any stable sort by key models it.  Key
comparison is by code points, as in Lean's `String` order. -/
def sortParams (filters : List (String × QV)) : List (String × QV) :=
  List.insertionSort (fun a b => a.1 ≤ b.1) filters

/-- `append_qs` from `lcoreapi/api.py`. -/
def append_qs (url : String) (filters : List (String × QV)) :
    Except String String :=
  if filters.isEmpty then .ok url
  else do
    let sep := if strContains url '?' then "&" else "?"
    let ps ← renderParams (sortParams filters)
    .ok (url ++ sep ++ String.intercalate "&" ps)

/-- `API.build_url`: resolve a leading-`/` URL against the base URL, then
append the query string. -/
def build_url (base url : String) (filters : List (String × QV)) :
    Except String String :=
  let u := if strStartsWith url "/" then base ++ url.drop 1 else url
  append_qs u filters

/-- The keyword arguments `_query` hands to the transport verb function:
`auth` is always set; `data` (the JSON-encoded body) and the
`Content-Type: application/json` header are set exactly when a body is
given; `timeout` is always set.  The body is carried here pre-serialization
(no claim inspects the serialized text). -/
structure RequestArgs where
  url : String
  hasAuth : Bool
  body : Option JVal
  contentType : Option String
  timeout : Nat
deriving Repr

/-- The request `_query(method, url, data)` issues. -/
def queryArgs (timeout : Nat) (url : String) (data : Option JVal) : RequestArgs :=
  { url := url
    hasAuth := true
    body := data
    contentType := if data.isSome then some "application/json" else none
    timeout := timeout }

/-- The transport request issued by `API.delete(url, **kwargs)`: the
filters go into the built URL, and `_query(requests.delete, url)` is called
with its `data` parameter left at its `None` default. -/
def deleteRequest (timeout : Nat) (base url : String)
    (filters : List (String × QV)) : Except String RequestArgs :=
  (build_url base url filters).map (fun u => queryArgs timeout u none)

/-- The transport request issued by `API.post/put/patch(url, data,
**kwargs)`. -/
def mutationRequest (timeout : Nat) (base url : String)
    (filters : List (String × QV)) (data : JVal) : Except String RequestArgs :=
  (build_url base url filters).map (fun u => queryArgs timeout u (some data))

/-- Result of the status-code classification in `_query`, after the body
decoded as JSON and was wrapped into a `Resource` (represented by its
fields). -/
inductive QueryResult where
  | ok (body : List (String × PVal))
  | badRequest (msg : PVal)
  | authError (msg : PVal)
  | notFound (msg : PVal)
  | methodNotAllowed (msg : PVal)
  | serverError (msg : PVal)
  | generic (status : Nat) (errType msg : PVal)
deriving Repr

/-- The status-code dispatch of `_query` (`lcoreapi/api.py`, the chain of
`if req.status_code == ...` tests). -/
def classify (status : Nat) (body : List (String × PVal)) : QueryResult :=
  if status == 200 || status == 201 then .ok body
  else if status == 400 then .badRequest (pyGetD body "message" (.pstr "Bad request"))
  else if status == 401 then .authError (pyGetD body "message" (.pstr "Unauthorized"))
  else if status == 403 then .authError (pyGetD body "message" (.pstr "Forbidden"))
  else if status == 404 then .notFound (pyGetD body "message" (.pstr "Not found"))
  else if status == 405 then
    .methodNotAllowed (pyGetD body "message" (.pstr "Method not allowed"))
  else if 500 ≤ status && status ≤ 599 then
    .serverError (pyGetD body "message" (.pstr "Unknown server error"))
  else .generic status (pyGet body "error") (pyGet body "message")

/-- Python `str()` of the scalar values that can occupy an error-message
slot (`str()` of containers and dates has Python-specific renderings that
no claim exercises; they are collapsed to a placeholder). -/
def pyStr : PVal → String
  | .null => "None"
  | .pbool b => if b then "True" else "False"
  | .pint n => toString n
  | .pstr s => s
  | _ => "object"

/-- The message argument the raised exception is constructed with:
`data.get('message', default)` for the five specific kinds, and for the
final catch-all the formatted string
`"Unknown error {status}: {error} ({message})"`. -/
def raisedMessage : QueryResult → Option PVal
  | .ok _ => none
  | .badRequest m => some m
  | .authError m => some m
  | .notFound m => some m
  | .methodNotAllowed m => some m
  | .serverError m => some m
  | .generic status t m =>
    some (.pstr ("Unknown error " ++ toString status ++ ": " ++ pyStr t
      ++ " (" ++ pyStr m ++ ")"))

/-- Result of one `API` verb call: the outcome of `_query` (or of URL
building), the cache afterwards, and whether a transport call was made. -/
structure VerbStep where
  result : Except String PVal
  cache : List (String × Int × PVal)
  transportCalled : Bool
deriving Repr

/-- Lazy eviction at the top of `API.get`: drop every entry strictly older
than `datetime.now() - self._cache_ttl`. -/
def evictStale (now ttl : Int) (cache : List (String × Int × PVal)) :
    List (String × Int × PVal) :=
  cache.filter (fun e => !decide (e.2.1 < now - ttl))

/-- Python `dict` lookup on the cache. -/
def cacheLookup : List (String × Int × PVal) → String → Option (Int × PVal)
  | [], _ => none
  | (k, e) :: rest, key => if k == key then some e else cacheLookup rest key

/-- Python `dict` assignment on the cache. -/
def cacheSet : List (String × Int × PVal) → String → Int × PVal →
    List (String × Int × PVal)
  | [], key, e => [(key, e)]
  | (k, e0) :: rest, key, e =>
    if k == key then (k, e) :: rest else (k, e0) :: cacheSet rest key e

/-- One `API.get` call.  `transport u b` stands for
`_query(method, u, data=b)`: the decoded `Resource` or a raised `APIError`.
`now` is `datetime.now()` (the two `now()` calls inside one `get` are
modelled as the same instant); `ttl` is `self._cache_ttl` (five minutes; the
claims use seconds, `ttl = 300`).  `self._cache` is never `None` (it is
created in `__init__`), so the `is not None` guards always pass. -/
def API_get_built (transport : String → Option JVal → Except String PVal)
    (now ttl : Int) (cache : List (String × Int × PVal)) (u : String) :
    VerbStep :=
  match cacheLookup (evictStale now ttl cache) u with
  | some (_, v) => ⟨.ok v, evictStale now ttl cache, false⟩
  | none =>
    match transport u none with
    | .error e => ⟨.error e, evictStale now ttl cache, true⟩
    | .ok data =>
      ⟨.ok data, cacheSet (evictStale now ttl cache) u (now, data), true⟩

def API_get (transport : String → Option JVal → Except String PVal)
    (now ttl : Int) (cache : List (String × Int × PVal)) (base url : String)
    (filters : List (String × QV)) : VerbStep :=
  match build_url base url filters with
  | .error e => ⟨.error e, cache, false⟩
  | .ok u => API_get_built transport now ttl cache u

/-- One `API.post` call: build the URL and call `_query` with a body.  The
method body never mentions `self._cache`; the cache is threaded through
unchanged purely so that this can be stated. -/
def API_post (transport : String → Option JVal → Except String PVal)
    (cache : List (String × Int × PVal)) (base url : String)
    (filters : List (String × QV)) (data : JVal) : VerbStep :=
  match build_url base url filters with
  | .error e => ⟨.error e, cache, false⟩
  | .ok u => ⟨transport u (some data), cache, true⟩

/-- `API.put`: identical shape to `API.post`. -/
def API_put (transport : String → Option JVal → Except String PVal)
    (cache : List (String × Int × PVal)) (base url : String)
    (filters : List (String × QV)) (data : JVal) : VerbStep :=
  match build_url base url filters with
  | .error e => ⟨.error e, cache, false⟩
  | .ok u => ⟨transport u (some data), cache, true⟩

/-- `API.patch`: identical shape to `API.post`. -/
def API_patch (transport : String → Option JVal → Except String PVal)
    (cache : List (String × Int × PVal)) (base url : String)
    (filters : List (String × QV)) (data : JVal) : VerbStep :=
  match build_url base url filters with
  | .error e => ⟨.error e, cache, false⟩
  | .ok u => ⟨transport u (some data), cache, true⟩

/-- `API.delete`: like `API.post` but without a body. -/
def API_delete (transport : String → Option JVal → Except String PVal)
    (cache : List (String × Int × PVal)) (base url : String)
    (filters : List (String × QV)) : VerbStep :=
  match build_url base url filters with
  | .error e => ⟨.error e, cache, false⟩
  | .ok u => ⟨transport u none, cache, true⟩

/-- C7: `parse_date` returns a null value for every falsy input; for every
string matching one of the four supported formats — after normalizing a
trailing `+00:00` to `Z` — it returns the corresponding timestamp, the
formats being tried in the fixed priority order (microseconds + Z), (no
microseconds + Z), (microseconds, no zone), (no microseconds, no zone)
(which is exactly `matchAny`); and for every other string it fails with the
`ValueError` "Unknown date format" and never returns the raw string
(successful results are timestamps by construction). -/
theorem C7_parse_date_contract :
    (∀ v : JVal, jfalsy v = true → parseDateJ v = .ok none)
    ∧ (∀ (s : String) (dt : DT), matchAny (replTrailing s.data) = some dt →
        parse_date s = .ok (some dt))
    ∧ (∀ s : String, s ≠ "" → matchAny (replTrailing s.data) = none →
        parse_date s = .error ("Unknown date format: " ++ s)) := by
  refine ⟨?_, ?_, ?_⟩
  · intro v hv
    simp [parseDateJ, hv]
  · intro s dt h
    have hs : s ≠ "" := by
      rintro rfl
      have hnil : matchAny (replTrailing ("" : String).data) = none := rfl
      rw [hnil] at h
      cases h
    unfold parse_date
    rw [if_neg hs, matchAny_repl_eq, h]
  · intro s hs h
    unfold parse_date
    rw [if_neg hs, matchAny_repl_eq, h]

/-- Witness for C7 at concrete inputs: a falsy value, a string in the
`+00:00` form, and a non-matching string. -/
theorem C7_parse_date_contract_witness :
    (jfalsy JVal.null = true ∧ parseDateJ JVal.null = .ok none)
    ∧ (matchAny (replTrailing "2021-03-04T05:06:07.250000+00:00".data)
        = some ⟨2021, 3, 4, 5, 6, 7, 250000⟩
      ∧ parse_date "2021-03-04T05:06:07.250000+00:00"
        = .ok (some ⟨2021, 3, 4, 5, 6, 7, 250000⟩))
    ∧ ("garbage" ≠ "" ∧ matchAny (replTrailing "garbage".data) = none
      ∧ parse_date "garbage" = .error ("Unknown date format: " ++ "garbage")) :=
  ⟨⟨rfl, C7_parse_date_contract.1 JVal.null rfl⟩,
   ⟨by decide, C7_parse_date_contract.2.1 _ _ (by decide)⟩,
   ⟨by decide, by decide, C7_parse_date_contract.2.2 _ (by decide) (by decide)⟩⟩

/-- Sorting by key gives the same list for any two permutations of the same
filter set, when the keys are distinct (as `**kwargs` keys always are). -/
theorem sortParams_perm_eq {fs gs : List (String × QV)} (hperm : fs.Perm gs)
    (hnodup : (fs.map Prod.fst).Nodup) : sortParams fs = sortParams gs := by
  haveI : IsTotal (String × QV) (fun a b => a.1 ≤ b.1) :=
    ⟨fun a b => le_total a.1 b.1⟩
  haveI : IsTrans (String × QV) (fun a b => a.1 ≤ b.1) :=
    ⟨fun a b c h1 h2 => le_trans h1 h2⟩
  have hs1 : (sortParams fs).Pairwise (fun a b : String × QV => a.1 ≤ b.1) :=
    List.sorted_insertionSort _ fs
  have hs2 : (sortParams gs).Pairwise (fun a b : String × QV => a.1 ≤ b.1) :=
    List.sorted_insertionSort _ gs
  have hp1 : (sortParams fs).Perm fs := List.perm_insertionSort _ fs
  have hp2 : (sortParams gs).Perm gs := List.perm_insertionSort _ gs
  have hperm' : (sortParams fs).Perm (sortParams gs) :=
    (hp1.trans hperm).trans hp2.symm
  have hnodup1 : ((sortParams fs).map Prod.fst).Nodup :=
    ((hp1.map Prod.fst).nodup_iff).2 hnodup
  have hnodup2 : ((sortParams gs).map Prod.fst).Nodup :=
    ((hperm'.map Prod.fst).nodup_iff).1 hnodup1
  have hne1 : (sortParams fs).Pairwise (fun a b : String × QV => a.1 ≠ b.1) :=
    (List.pairwise_map.1 hnodup1)
  have hne2 : (sortParams gs).Pairwise (fun a b : String × QV => a.1 ≠ b.1) :=
    (List.pairwise_map.1 hnodup2)
  have hlt1 : (sortParams fs).Pairwise (fun a b : String × QV => a.1 < b.1) :=
    (hs1.and hne1).imp (fun {a b} h => lt_of_le_of_ne h.1 h.2)
  have hlt2 : (sortParams gs).Pairwise (fun a b : String × QV => a.1 < b.1) :=
    (hs2.and hne2).imp (fun {a b} h => lt_of_le_of_ne h.1 h.2)
  haveI : IsAntisymm (String × QV) (fun a b => a.1 < b.1) :=
    ⟨fun a b h1 h2 => absurd h2 (lt_asymm h1)⟩
  exact List.eq_of_perm_of_sorted hperm' hlt1 hlt2

/-- C9: `append_qs` joins the parameters sorted by key, so any two filter
mappings equal as sets of key-value pairs (with the distinct keys of
`**kwargs`) produce the identical output URL regardless of order. -/
theorem C9_append_qs_order_independent (url : String) (fs gs : List (String × QV))
    (hperm : fs.Perm gs) (hnodup : (fs.map Prod.fst).Nodup) :
    append_qs url fs = append_qs url gs := by
  rcases eq_or_ne fs [] with rfl | hne
  · rw [hperm.symm.eq_nil]
  · have hgne : gs ≠ [] := fun h => hne (hperm.trans (h ▸ List.Perm.refl _)).eq_nil
    unfold append_qs
    rw [sortParams_perm_eq hperm hnodup,
        if_neg (fun hc => hne (List.isEmpty_iff.1 hc)),
        if_neg (fun hc => hgne (List.isEmpty_iff.1 hc))]

/-- Witness for C9: `b=2, a=1` and `a=1, b=2` produce the same URL. -/
theorem C9_append_qs_order_independent_witness :
    [("b", QV.qint 2), ("a", QV.qint 1)].Perm [("a", QV.qint 1), ("b", QV.qint 2)]
    ∧ ([("b", QV.qint 2), ("a", QV.qint 1)].map Prod.fst).Nodup
    ∧ append_qs "https://core.lambdavpn.net/v1/x"
        [("b", QV.qint 2), ("a", QV.qint 1)]
      = append_qs "https://core.lambdavpn.net/v1/x"
        [("a", QV.qint 1), ("b", QV.qint 2)] :=
  ⟨List.Perm.swap ("a", QV.qint 1) ("b", QV.qint 2) [],
   by decide,
   C9_append_qs_order_independent _ _ _
     (List.Perm.swap ("a", QV.qint 1) ("b", QV.qint 2) [])
     (by decide)⟩

/-- C6 counterexample: for a status outside the specific table (here 402),
the body's `message` field is present (`"m"`), but the raised error's
message is the formatted catch-all string `"Unknown error 402: e (m)"`,
not `"m"`; and the defaults for the single `AuthError` kind differ by
status (401 `"Unauthorized"` vs 403 `"Forbidden"`), so there is no fixed
per-kind default either. -/
theorem C6_counterexample :
    raisedMessage (classify 402 [("error", PVal.pstr "e"), ("message", PVal.pstr "m")])
      ≠ some (PVal.pstr "m")
    ∧ classify 401 [] = .authError (.pstr "Unauthorized")
    ∧ classify 403 [] = .authError (.pstr "Forbidden") := by
  refine ⟨?_, rfl, rfl⟩
  intro h
  have : ("Unknown error 402: e (m)" : String) = "m" := by
    have h2 := h
    simp only [classify, raisedMessage, pyGet, pyGetD, plookup, pyStr] at h2
    exact (PVal.pstr.injEq .. ▸ Option.some.injEq .. ▸ h2)
  simp at this

/-- C6 as amended: the status→kind mapping is exactly as claimed (200/201
success; 400 `BadRequest`; 401/403 `AuthError`; 404 `NotFound`; 405
`MethodNotAllowed`; 500-599 `ServerError`; generic catch-all otherwise
carrying raw status, `error` and `message` fields); the five specific
kinds carry the body's `message` when present and a fixed *per-status*
default otherwise; the generic error's message is the fixed format string
embedding the raw status and the body's `error`/`message` fields. -/
theorem C6_status_classification (status : Nat) (body : List (String × PVal)) :
    ((status = 200 ∨ status = 201) → classify status body = .ok body)
    ∧ (status = 400 → classify status body
        = .badRequest (pyGetD body "message" (.pstr "Bad request")))
    ∧ (status = 401 → classify status body
        = .authError (pyGetD body "message" (.pstr "Unauthorized")))
    ∧ (status = 403 → classify status body
        = .authError (pyGetD body "message" (.pstr "Forbidden")))
    ∧ (status = 404 → classify status body
        = .notFound (pyGetD body "message" (.pstr "Not found")))
    ∧ (status = 405 → classify status body
        = .methodNotAllowed (pyGetD body "message" (.pstr "Method not allowed")))
    ∧ (500 ≤ status → status ≤ 599 → classify status body
        = .serverError (pyGetD body "message" (.pstr "Unknown server error")))
    ∧ (¬(status = 200 ∨ status = 201 ∨ status = 400 ∨ status = 401 ∨ status = 403
          ∨ status = 404 ∨ status = 405 ∨ (500 ≤ status ∧ status ≤ 599)) →
        classify status body
          = .generic status (pyGet body "error") (pyGet body "message")
        ∧ raisedMessage (classify status body)
          = some (.pstr ("Unknown error " ++ toString status ++ ": "
              ++ pyStr (pyGet body "error") ++ " ("
              ++ pyStr (pyGet body "message") ++ ")"))) := by
  refine ⟨?_, ?_, ?_, ?_, ?_, ?_, ?_, ?_⟩
  · rintro (rfl | rfl) <;> rfl
  · rintro rfl; rfl
  · rintro rfl; rfl
  · rintro rfl; rfl
  · rintro rfl; rfl
  · rintro rfl; rfl
  · intro h1 h2
    simp only [classify, Bool.or_eq_true, beq_iff_eq, Bool.and_eq_true,
      decide_eq_true_eq]
    rw [if_neg (by omega : ¬(status = 200 ∨ status = 201)),
        if_neg (by omega : ¬status = 400), if_neg (by omega : ¬status = 401),
        if_neg (by omega : ¬status = 403), if_neg (by omega : ¬status = 404),
        if_neg (by omega : ¬status = 405), if_pos ⟨h1, h2⟩]
  · intro h
    have hcl : classify status body
        = .generic status (pyGet body "error") (pyGet body "message") := by
      simp only [classify, Bool.or_eq_true, beq_iff_eq, Bool.and_eq_true,
        decide_eq_true_eq]
      rw [if_neg (by omega : ¬(status = 200 ∨ status = 201)),
          if_neg (by omega : ¬status = 400), if_neg (by omega : ¬status = 401),
          if_neg (by omega : ¬status = 403), if_neg (by omega : ¬status = 404),
          if_neg (by omega : ¬status = 405),
          if_neg (by omega : ¬(500 ≤ status ∧ status ≤ 599))]
    exact ⟨hcl, by rw [hcl]; rfl⟩

/-- Witness for C6 at concrete statuses: success, 404 with and without a
body message, and the generic catch-all. -/
theorem C6_status_classification_witness :
    classify 200 [] = .ok []
    ∧ classify 404 [("message", PVal.pstr "no such thing")]
        = .notFound (.pstr "no such thing")
    ∧ classify 404 [] = .notFound (.pstr "Not found")
    ∧ classify 503 [] = .serverError (.pstr "Unknown server error")
    ∧ classify 418 [] = .generic 418 .null .null :=
  ⟨(C6_status_classification 200 []).1 (Or.inl rfl),
   ((C6_status_classification 404 [("message", PVal.pstr "no such thing")]).2.2.2.2.1
     rfl).trans rfl,
   ((C6_status_classification 404 []).2.2.2.2.1 rfl).trans rfl,
   ((C6_status_classification 503 []).2.2.2.2.2.2.1 (by omega) (by omega)).trans rfl,
   ((C6_status_classification 418 []).2.2.2.2.2.2.2 (by omega)).1.trans rfl⟩

/-- A stub: key set `(object, href, id)` with a non-empty `href`. -/
def stubRes : ResState :=
  ⟨[("object", .pstr "x"), ("href", .pstr "/x/1"), ("id", .pint 1)], false⟩

/-- A non-stub, never-hydrated `Resource` (its key set is not a subset of
`(object, href, id)`). -/
def plainRes : ResState := ⟨[("a", .pint 1)], false⟩

/-- A hydration oracle standing for an `api.get` call that raises (e.g. an
`APINotFoundError` from a 404 on `href`). -/
def fetchNotFound : PVal → Except String (List (String × PVal)) :=
  fun _ => .error "APINotFoundError: Not found"

/-- A hydration oracle standing for an `api.get` call that succeeds with a
body carrying a `name` field. -/
def fetchBody : PVal → Except String (List (String × PVal)) :=
  fun _ => .ok [("object", .pstr "x"), ("name", .pstr "n")]

/-- C1 evaluated at the failing input: on a stub whose hydration fetch
raises, the first access of a missing field does attempt the fetch, but the
exception propagates *before* the line `self.__loaded = True` is reached,
so the `Resource` is left in exactly its previous state with the flag still
`False` — and a second access therefore attempts the fetch again.  (The
success path, in contrast, does set the flag, after which a missing field
raises `KeyError` without any further fetch.)  This contradicts the claim
and the code's own comment `# Flag to prevent repeating 404's`. -/
theorem C1_failed_fetch_not_latched :
    getitem fetchNotFound stubRes "name"
      = (.apiError "APINotFoundError: Not found", stubRes, true)
    ∧ stubRes.loaded = false
    ∧ (getitem fetchNotFound (getitem fetchNotFound stubRes "name").2.1 "name").2.2
        = true
    ∧ getitem fetchBody stubRes "name"
      = (.val (.pstr "n"),
         ⟨[("object", .pstr "x"), ("href", .pstr "/x/1"), ("id", .pint 1),
           ("name", .pstr "n")], true⟩, true)
    ∧ (getitem fetchBody (getitem fetchBody stubRes "name").2.1 "missing")
      = (.keyError "missing", (getitem fetchBody stubRes "name").2.1, false) :=
  ⟨rfl, rfl, rfl, rfl, rfl⟩

/-- C3 evaluated at the failing input: on a not-loaded non-stub `Resource`,
looking up an absent field does *not* re-raise the `KeyError` — control
falls off the end of the `except KeyError` block and the method returns
`None`, a masked substitute value.  (Only the already-loaded case
re-raises, as the second conjunct shows.) -/
theorem C3_missing_field_masked_as_none :
    getitem fetchNotFound plainRes "b" = (.val .null, plainRes, false)
    ∧ getitem fetchNotFound ⟨[("a", .pint 1)], true⟩ "b"
      = (.keyError "b", ⟨[("a", .pint 1)], true⟩, false) :=
  ⟨rfl, rfl⟩

/-- Third page of the C2 scenario: items `[5, 6]`, no `next`. -/
def page3Fields : List (String × PVal) := [("items", .parr [.pint 5, .pint 6])]

/-- Second page: items `[3, 4]`, `next` pointing at page 3. -/
def page2Fields : List (String × PVal) :=
  [("items", .parr [.pint 3, .pint 4]), ("next", .pres page3Fields false)]

/-- First page: a `list` Resource with items `[1, 2]` and `next` pointing
at page 2. -/
def page1Fields : List (String × PVal) :=
  [("object", .pstr "list"), ("items", .parr [.pint 1, .pint 2]),
   ("next", .pres page2Fields false)]

/-- One iteration of the `list_iter` loop after the first: the loop
variable is re-read from the *first* page's `next` (the code says
`self.get('next')`), so it is page 2 every time, and the state is
unchanged. -/
theorem listIter_page1_step (fetch : PVal → Except String (List (String × PVal)))
    (m : Nat) :
    listIterAux fetch (m + 1) ⟨page1Fields, false⟩ .nxt
      = (listIterAux fetch m ⟨page1Fields, false⟩ .nxt).map
          (fun tail => [PVal.pint 3, PVal.pint 4] ++ tail) := rfl

/-- Closed form of the looping tail: `m` further iterations yield page 2's
items `m` times. -/
theorem listIter_page1_tail (fetch : PVal → Except String (List (String × PVal))) :
    ∀ m : Nat, listIterAux fetch m ⟨page1Fields, false⟩ .nxt
      = .ok (List.replicate m [PVal.pint 3, PVal.pint 4]).flatten
  | 0 => rfl
  | m + 1 => by
    rw [listIter_page1_step, listIter_page1_tail fetch m]
    rfl

/-- C2 evaluated on the three-page chain: because the loop advances with
`o = self.get('next')` instead of `o.get('next')`, iterating the list
yields page 1's items once and then page 2's items over and over: with
iteration bound `n + 1` the output is `[1, 2]` followed by `n` copies of
`[3, 4]`.  Page 3's items (5 and 6) are never produced, items 3 and 4 are
produced more than once as soon as the bound allows, and the iteration
never terminates (the output keeps growing with the bound) — against the
claim's "each item exactly once ... then terminates". -/
theorem C2_pagination_repeats_page2
    (fetch : PVal → Except String (List (String × PVal))) (n : Nat) :
    list_iter fetch (n + 1) ⟨page1Fields, false⟩
      = .ok ([PVal.pint 1, PVal.pint 2]
          ++ (List.replicate n [PVal.pint 3, PVal.pint 4]).flatten)
    ∧ PVal.pint 5 ∉ ([PVal.pint 1, PVal.pint 2]
          ++ (List.replicate n [PVal.pint 3, PVal.pint 4]).flatten)
    ∧ list_iter fetch 3 ⟨page1Fields, false⟩
      = .ok [PVal.pint 1, PVal.pint 2, PVal.pint 3, PVal.pint 4,
             PVal.pint 3, PVal.pint 4] := by
  refine ⟨?_, ?_, rfl⟩
  · show (listIterAux fetch (n + 1) ⟨page1Fields, false⟩ .slf)
      = .ok ([PVal.pint 1, PVal.pint 2]
          ++ (List.replicate n [PVal.pint 3, PVal.pint 4]).flatten)
    have hhead : listIterAux fetch (n + 1) ⟨page1Fields, false⟩ .slf
        = (listIterAux fetch n ⟨page1Fields, false⟩ .nxt).map
            (fun tail => [PVal.pint 1, PVal.pint 2] ++ tail) := rfl
    rw [hhead, listIter_page1_tail fetch n]
    rfl
  · intro hm
    rcases List.mem_append.1 hm with hm | hm
    · simp at hm
    · rcases List.mem_flatten.1 hm with ⟨l, hl, hml⟩
      rw [List.eq_of_mem_replicate hl] at hml
      simp at hml

/-- Witness for C2 at the concrete bound 2: the first two iterations yield
`[1, 2, 3, 4]`, and item 5 (page 3) is not among them. -/
theorem C2_pagination_repeats_page2_witness :
    list_iter fetchNotFound 2 ⟨page1Fields, false⟩
      = .ok ([PVal.pint 1, PVal.pint 2]
          ++ (List.replicate 1 [PVal.pint 3, PVal.pint 4]).flatten)
    ∧ PVal.pint 5 ∉ ([PVal.pint 1, PVal.pint 2]
          ++ (List.replicate 1 [PVal.pint 3, PVal.pint 4]).flatten) :=
  ⟨(C2_pagination_repeats_page2 fetchNotFound 1).1,
   (C2_pagination_repeats_page2 fetchNotFound 1).2.1⟩

/-- C8 evaluated: the boolean, numeric and string/bytes branches of `quote`
behave exactly as claimed, but the `datetime` branch calls the nonexistent
method `utctimestamp`, so for *every* timestamp value `quote` raises
`AttributeError` instead of returning the UTC epoch seconds string. -/
theorem C8_quote_datetime_crashes :
    quote (.qbool true) = .ok "1"
    ∧ quote (.qbool false) = .ok "0"
    ∧ quote (.qint 17) = .ok "17"
    ∧ quote (.qint (-5)) = .ok "-5"
    ∧ quote (.qstr "a b/c~") = .ok "a%20b/c~"
    ∧ quote (.qbytes [97, 32, 98]) = .ok "a%20b"
    ∧ (∀ d : DT, quote (.qdatetime d)
        = .error "AttributeError: datetime object has no attribute utctimestamp")
    ∧ (∀ d : DT, ∀ s : String, quote (.qdatetime d) ≠ .ok s) := by
  refine ⟨rfl, rfl, rfl, rfl, rfl, rfl, fun d => rfl, ?_⟩
  intro d s h
  cases h

/-- Witness for C8 at a concrete timestamp. -/
theorem C8_quote_datetime_crashes_witness :
    quote (.qdatetime ⟨2021, 1, 1, 0, 0, 0, 0⟩)
      = .error "AttributeError: datetime object has no attribute utctimestamp"
    ∧ quote (.qdatetime ⟨2021, 1, 1, 0, 0, 0, 0⟩) ≠ .ok "1609459200" :=
  ⟨C8_quote_datetime_crashes.2.2.2.2.2.2.1 ⟨2021, 1, 1, 0, 0, 0, 0⟩,
   C8_quote_datetime_crashes.2.2.2.2.2.2.2 ⟨2021, 1, 1, 0, 0, 0, 0⟩ "1609459200"⟩

/-- C10: `API.delete(url, **filters)` encodes the keyword arguments only
into the URL query string and issues the transport call with the `data`
parameter of `_query` left at its `None` default — so no request body is
transmitted and no `Content-Type` header is set, for every input. -/
theorem C10_delete_sends_no_body (timeout : Nat) (base url : String)
    (filters : List (String × QV)) :
    (∀ u, build_url base url filters = .ok u →
      deleteRequest timeout base url filters
        = .ok { url := u, hasAuth := true, body := none, contentType := none,
                timeout := timeout })
    ∧ (∀ args, deleteRequest timeout base url filters = .ok args →
        args.body = none ∧ args.contentType = none
        ∧ build_url base url filters = .ok args.url)
    ∧ (∀ data args, mutationRequest timeout base url filters data = .ok args →
        args.body = some data ∧ args.contentType = some "application/json") := by
  refine ⟨?_, ?_, ?_⟩
  · intro u hu
    unfold deleteRequest queryArgs
    rw [hu]
    rfl
  · intro args hargs
    unfold deleteRequest at hargs
    cases hb : build_url base url filters with
    | error e => rw [hb] at hargs; cases hargs
    | ok u =>
      rw [hb] at hargs
      cases hargs
      exact ⟨rfl, rfl, rfl⟩
  · intro data args hargs
    unfold mutationRequest at hargs
    cases hb : build_url base url filters with
    | error e => rw [hb] at hargs; cases hargs
    | ok u =>
      rw [hb] at hargs
      cases hargs
      exact ⟨rfl, rfl⟩

/-- Witness for C10 at a concrete call:
`delete('/x', a=1)` against the default base URL. -/
theorem C10_delete_sends_no_body_witness :
    build_url "https://core.lambdavpn.net/v1/" "/x" [("a", QV.qint 1)]
      = .ok "https://core.lambdavpn.net/v1/x?a=1"
    ∧ deleteRequest 10 "https://core.lambdavpn.net/v1/" "/x" [("a", QV.qint 1)]
      = .ok { url := "https://core.lambdavpn.net/v1/x?a=1", hasAuth := true,
              body := none, contentType := none, timeout := 10 } :=
  ⟨rfl, (C10_delete_sends_no_body 10 "https://core.lambdavpn.net/v1/" "/x"
    [("a", QV.qint 1)]).1 "https://core.lambdavpn.net/v1/x?a=1" rfl⟩

/-- When URL building succeeds, `API.get` is the built-URL stage. -/
theorem API_get_of_build {transport} {now ttl : Int} {cache} {base url : String}
    {filters : List (String × QV)} {u : String}
    (hbuild : build_url base url filters = .ok u) :
    API_get transport now ttl cache base url filters
      = API_get_built transport now ttl cache u := by
  unfold API_get
  rw [hbuild]

/-- Membership in the cache after a Python `dict` assignment. -/
theorem cacheSet_mem {c : List (String × Int × PVal)} {key : String}
    {e : Int × PVal} {x : String × Int × PVal} (h : x ∈ cacheSet c key e) :
    x ∈ c ∨ x = (key, e) := by
  induction c with
  | nil =>
    simp only [cacheSet, List.mem_singleton] at h
    exact Or.inr h
  | cons kv rest ih =>
    obtain ⟨k0, e0⟩ := kv
    simp only [cacheSet] at h
    split at h
    · rename_i hk
      rcases List.mem_cons.1 h with rfl | hm
      · rw [beq_iff_eq] at hk
        subst hk
        exact Or.inr rfl
      · exact Or.inl (List.mem_cons_of_mem _ hm)
    · rcases List.mem_cons.1 h with rfl | hm
      · exact Or.inl (List.mem_cons_self ..)
      · rcases ih hm with h1 | h1
        · exact Or.inl (List.mem_cons_of_mem _ h1)
        · exact Or.inr h1

/-- Entries surviving the lazy eviction are not stale. -/
theorem evictStale_mem {now ttl : Int} {c : List (String × Int × PVal)}
    {x : String × Int × PVal} (h : x ∈ evictStale now ttl c) :
    x ∈ c ∧ ¬ x.2.1 < now - ttl := by
  unfold evictStale at h
  have hf := List.mem_filter.1 h
  refine ⟨hf.1, ?_⟩
  have := hf.2
  simpa only [Bool.not_eq_true', decide_eq_false_iff_not] using this

/-- C5: only `get` touches the cache.  Part 1 is the claimed scenario: a
`get` whose transport succeeds stores the result keyed by the built URL
with the current timestamp; a `get` for the same URL 4 minutes later is
served from the cache with no transport call; a `get` 6 minutes later
evicts the stale entry, performs a fresh transport call and re-stores the
result (TTL 300 seconds = 5 minutes).  Part 2: after any `get` that reaches
the cache (URL building succeeded), no stale entry remains — eviction runs
first on every `get`.  Parts 3 and 4: `post`, `put`, `patch`, `delete`
neither write the cache (it passes through unchanged) nor read it (their
result does not depend on it). -/
theorem C5_cache_only_get :
    (∀ (transport : String → Option JVal → Except String PVal) (T : Int)
       (base url u : String) (filters : List (String × QV)) (r : PVal),
       build_url base url filters = .ok u → transport u none = .ok r →
       API_get transport T 300 [] base url filters
         = ⟨.ok r, [(u, T, r)], true⟩
       ∧ API_get transport (T + 240) 300 [(u, T, r)] base url filters
         = ⟨.ok r, [(u, T, r)], false⟩
       ∧ API_get transport (T + 360) 300 [(u, T, r)] base url filters
         = ⟨.ok r, [(u, T + 360, r)], true⟩)
    ∧ (∀ transport (now : Int) base url (filters : List (String × QV)) cache u,
        build_url base url filters = .ok u →
        ∀ x ∈ (API_get transport now 300 cache base url filters).cache,
          ¬ x.2.1 < now - 300)
    ∧ (∀ transport cache base url (filters : List (String × QV)) data,
        (API_post transport cache base url filters data).cache = cache
        ∧ (API_put transport cache base url filters data).cache = cache
        ∧ (API_patch transport cache base url filters data).cache = cache
        ∧ (API_delete transport cache base url filters).cache = cache)
    ∧ (∀ transport cache cache' base url (filters : List (String × QV)) data,
        (API_post transport cache base url filters data).result
          = (API_post transport cache' base url filters data).result
        ∧ (API_put transport cache base url filters data).result
          = (API_put transport cache' base url filters data).result
        ∧ (API_patch transport cache base url filters data).result
          = (API_patch transport cache' base url filters data).result
        ∧ (API_delete transport cache base url filters).result
          = (API_delete transport cache' base url filters).result) := by
  refine ⟨?_, ?_, ?_, ?_⟩
  · intro transport T base url u filters r hbuild htr
    have hev0 : evictStale T 300 ([] : List (String × Int × PVal)) = [] := rfl
    have hev1 : evictStale (T + 240) 300 [(u, T, r)] = [(u, T, r)] := by
      have hc : (!decide ((T : Int) < T + 240 - 300)) = true := by
        simp only [Bool.not_eq_true', decide_eq_false_iff_not]
        omega
      simp only [evictStale, List.filter_cons, List.filter_nil]
      rw [if_pos hc]
    have hev2 : evictStale (T + 360) 300 [(u, T, r)] = [] := by
      have hc : (!decide ((T : Int) < T + 360 - 300)) = false := by
        simp only [Bool.not_eq_false', decide_eq_true_eq]
        omega
      simp only [evictStale, List.filter_cons, List.filter_nil]
      rw [if_neg (by rw [hc]; exact Bool.false_ne_true)]
    refine ⟨?_, ?_, ?_⟩
    · rw [API_get_of_build hbuild]
      unfold API_get_built
      rw [hev0]
      simp only [cacheLookup, htr, cacheSet]
    · rw [API_get_of_build hbuild]
      unfold API_get_built
      rw [hev1]
      simp only [cacheLookup, beq_self_eq_true, if_true]
    · rw [API_get_of_build hbuild]
      unfold API_get_built
      rw [hev2]
      simp only [cacheLookup, htr, cacheSet]
  · intro transport now base url filters cache u hbuild x hx
    rw [API_get_of_build hbuild] at hx
    unfold API_get_built at hx
    cases h2 : cacheLookup (evictStale now 300 cache) u with
    | some e =>
      obtain ⟨t, v⟩ := e
      rw [h2] at hx
      exact (evictStale_mem hx).2
    | none =>
      rw [h2] at hx
      cases h3 : transport u none with
      | error e =>
        rw [h3] at hx
        exact (evictStale_mem hx).2
      | ok data =>
        rw [h3] at hx
        rcases cacheSet_mem hx with hm | rfl
        · exact (evictStale_mem hm).2
        · simp only []
          omega
  · intro transport cache base url filters data
    refine ⟨?_, ?_, ?_, ?_⟩ <;>
      cases hb : build_url base url filters <;>
        simp [API_post, API_put, API_patch, API_delete, hb]
  · intro transport cache cache' base url filters data
    refine ⟨?_, ?_, ?_, ?_⟩ <;>
      (cases hb : build_url base url filters <;>
        simp [API_post, API_put, API_patch, API_delete, hb])

/-- A concrete transport oracle for the C5 witness: every URL yields the
same decoded `Resource`. -/
def constTransport : String → Option JVal → Except String PVal :=
  fun _ _ => .ok (.pstr "R")

/-- Witness for C5 at a concrete instant and URL: insert at `T = 1000`,
cache hit at `T + 240` with no transport call, fresh fetch at `T + 360`. -/
theorem C5_cache_only_get_witness :
    build_url "https://b/" "/x" [] = .ok "https://b/x"
    ∧ constTransport "https://b/x" none = .ok (.pstr "R")
    ∧ API_get constTransport 1000 300 [] "https://b/" "/x" []
      = ⟨.ok (.pstr "R"), [("https://b/x", 1000, .pstr "R")], true⟩
    ∧ API_get constTransport 1240 300 [("https://b/x", 1000, .pstr "R")]
        "https://b/" "/x" []
      = ⟨.ok (.pstr "R"), [("https://b/x", 1000, .pstr "R")], false⟩
    ∧ API_get constTransport 1360 300 [("https://b/x", 1000, .pstr "R")]
        "https://b/" "/x" []
      = ⟨.ok (.pstr "R"), [("https://b/x", 1360, .pstr "R")], true⟩
    ∧ ¬ ((("https://b/x", 1360, PVal.pstr "R") : String × Int × PVal).2.1
          < 1360 - 300)
    ∧ (API_post constTransport [("https://b/x", 1000, .pstr "R")] "https://b/"
        "/x" [] JVal.null).cache = [("https://b/x", 1000, .pstr "R")] := by
  have h := C5_cache_only_get.1 constTransport 1000 "https://b/" "/x"
    "https://b/x" [] (.pstr "R") rfl rfl
  refine ⟨rfl, rfl, h.1, h.2.1, h.2.2, ?_, ?_⟩
  · refine C5_cache_only_get.2.1 constTransport 1360 "https://b/" "/x" []
      [("https://b/x", 1000, .pstr "R")] "https://b/x" rfl _ ?_
    rw [show (1360 : Int) = 1000 + 360 from by norm_num, h.2.2]
    exact List.mem_cons_self ..
  · exact (C5_cache_only_get.2.2.1 constTransport
      [("https://b/x", 1000, .pstr "R")] "https://b/" "/x" [] JVal.null).1

mutual
/-- The claim's invariant for one field of a constructed `Resource`,
relating the field's pre-construction JSON value to the value the
`Resource` holds: a date-named field holds the `parse_date` result (a
timestamp, or `None` for falsy input — by shape never the raw string); a
field that was a JSON object holds a `Resource` (`pres`, never a plain
`pdict`) satisfying the invariant recursively; a field that was a JSON
array holds an array whose object elements are `Resource`s satisfying the
invariant recursively and whose other elements are unchanged; every other
(scalar) field is unchanged. -/
inductive FieldInv : String → JVal → PVal → Prop
  | date (k : String) (v : JVal) (d : Option DT) :
      isDateKey k = true → parseDateJ v = .ok d →
      FieldInv k v (match d with | none => PVal.null | some dt => PVal.pdate dt)
  | obj (k : String) (fs : List (String × JVal)) (out : List (String × PVal)) :
      isDateKey k = false → FieldsInv fs out →
      FieldInv k (.jobj fs) (.pres out false)
  | arr (k : String) (items : List JVal) (out : List PVal) :
      isDateKey k = false → ArrInv items out →
      FieldInv k (.jarr items) (.parr out)
  | scalar (k : String) (v : JVal) :
      isDateKey k = false → (∀ fs, v ≠ .jobj fs) → (∀ its, v ≠ .jarr its) →
      FieldInv k v (toP v)

/-- The invariant over all fields of a constructed `Resource`: same keys in
the same order, each related by `FieldInv`. -/
inductive FieldsInv : List (String × JVal) → List (String × PVal) → Prop
  | nil : FieldsInv [] []
  | cons (k : String) (v : JVal) (w : PVal) (rest : List (String × JVal))
      (rest' : List (String × PVal)) :
      FieldInv k v w → FieldsInv rest rest' →
      FieldsInv ((k, v) :: rest) ((k, w) :: rest')

/-- The invariant over the elements of a directly held array: object
elements became `Resource`s, other elements are unchanged. -/
inductive ArrInv : List JVal → List PVal → Prop
  | nil : ArrInv [] []
  | consObj (fs : List (String × JVal)) (out : List (String × PVal))
      (rest : List JVal) (rest' : List PVal) :
      FieldsInv fs out → ArrInv rest rest' →
      ArrInv (.jobj fs :: rest) (.pres out false :: rest')
  | consOther (v : JVal) (rest : List JVal) (rest' : List PVal) :
      (∀ fs, v ≠ .jobj fs) → ArrInv rest rest' →
      ArrInv (v :: rest) (toP v :: rest')
end

theorem except_bind_ok {α β : Type} {x : Except String α} {f : α → Except String β}
    {b : β} (h : (x >>= f) = .ok b) : ∃ a, x = .ok a ∧ f a = .ok b := by
  cases x with
  | error e => exact absurd h (by simp [Bind.bind, Except.bind])
  | ok a => exact ⟨a, rfl, by simpa [Bind.bind, Except.bind] using h⟩

theorem except_map_ok {α β : Type} {x : Except String α} {f : α → β} {b : β}
    (h : x.map f = .ok b) : ∃ a, x = .ok a ∧ f a = b := by
  cases x with
  | error e => exact absurd h (by simp [Except.map])
  | ok a => exact ⟨a, rfl, by simpa [Except.map] using h⟩

/-- The preprocessing of `Resource.__init__` establishes the claim's
invariant, proved by strong induction on the size of the input. -/
theorem wrap_establishes_inv (n : Nat) :
    (∀ fields out, sizeOf fields ≤ n → wrapFields fields = .ok out →
      FieldsInv fields out)
    ∧ (∀ items out, sizeOf items ≤ n → wrapArr items = .ok out →
      ArrInv items out) := by
  induction n using Nat.strong_induction_on with
  | _ n ih =>
    constructor
    · intro fields out hn h
      cases fields with
      | nil =>
        simp only [wrapFields] at h
        cases h
        exact .nil
      | cons kv rest =>
        obtain ⟨k, v⟩ := kv
        simp only [wrapFields] at h
        split at h
        · cases h
        · rename_i w hw
          split at h
          · cases h
          · rename_i rest' hrest
            rw [Except.ok.injEq] at h
            subst h
            have hszrest : sizeOf rest < n := by
              have : sizeOf rest < sizeOf ((k, v) :: rest) := by
                simp only [List.cons.sizeOf_spec]
                omega
              omega
            have hrest' : FieldsInv rest rest' :=
              (ih (sizeOf rest) hszrest).1 rest rest' le_rfl hrest
            refine FieldsInv.cons k v w rest rest' ?_ hrest'
            unfold wrapField at hw
            split at hw
            · rename_i v1 xb v2 hk
              unfold wrapDate at hw
              split at hw
              · cases hw
              · rename_i hd
                rw [Except.ok.injEq] at hw
                rw [← hw]
                exact FieldInv.date k v1 none hk hd
              · rename_i dt hd
                rw [Except.ok.injEq] at hw
                rw [← hw]
                exact FieldInv.date k v1 (some dt) hk hd
            · rename_i xb v2 fs hk
              split at hw
              · cases hw
              · rename_i out0 hout
                rw [Except.ok.injEq] at hw
                have hszfs : sizeOf fs < n := by
                  have : sizeOf fs < sizeOf ((k, JVal.jobj fs) :: rest) := by
                    simp only [List.cons.sizeOf_spec, Prod.mk.sizeOf_spec,
                      JVal.jobj.sizeOf_spec]
                    omega
                  omega
                rw [← hw]
                exact FieldInv.obj k fs out0 hk
                  ((ih (sizeOf fs) hszfs).1 fs out0 le_rfl hout)
            · rename_i xb v2 items hk
              split at hw
              · cases hw
              · rename_i out0 hout
                rw [Except.ok.injEq] at hw
                have hszit : sizeOf items < n := by
                  have : sizeOf items < sizeOf ((k, JVal.jarr items) :: rest) := by
                    simp only [List.cons.sizeOf_spec, Prod.mk.sizeOf_spec,
                      JVal.jarr.sizeOf_spec]
                    omega
                  omega
                rw [← hw]
                exact FieldInv.arr k items out0 hk
                  ((ih (sizeOf items) hszit).2 items out0 le_rfl hout)
            · rename_i v1 xb2 v2 hk hnobj hnarr
              rw [Except.ok.injEq] at hw
              rw [← hw]
              exact FieldInv.scalar k v1 hk hnobj hnarr
    · intro items out hn h
      cases items with
      | nil =>
        simp only [wrapArr] at h
        cases h
        exact .nil
      | cons v rest =>
        simp only [wrapArr] at h
        split at h
        · cases h
        · rename_i w hw
          split at h
          · cases h
          · rename_i rest' hrest
            rw [Except.ok.injEq] at h
            subst h
            have hszrest : sizeOf rest < n := by
              have : sizeOf rest < sizeOf (v :: rest) := by
                simp only [List.cons.sizeOf_spec]
                omega
              omega
            have hrest' : ArrInv rest rest' :=
              (ih (sizeOf rest) hszrest).2 rest rest' le_rfl hrest
            unfold wrapElem at hw
            split at hw
            · rename_i fs
              split at hw
              · cases hw
              · rename_i out0 hout
                rw [Except.ok.injEq] at hw
                have hszfs : sizeOf fs < n := by
                  have : sizeOf fs < sizeOf (JVal.jobj fs :: rest) := by
                    simp only [List.cons.sizeOf_spec, JVal.jobj.sizeOf_spec]
                    omega
                  omega
                rw [← hw]
                exact ArrInv.consObj fs out0 rest rest'
                  ((ih (sizeOf fs) hszfs).1 fs out0 le_rfl hout) hrest'
            · rename_i v2 hnobj
              rw [Except.ok.injEq] at hw
              rw [← hw]
              exact ArrInv.consOther v rest rest' hnobj hrest'

/-- C4: a `Resource` constructed from a JSON object body maps each field
whose name ends in `_date` (or is exactly `date`) to the `parse_date`
result of its value — a timestamp, or `None` for falsy input, never the
raw string; wraps every direct child value that was a JSON object,
including object elements of a directly held array and, recursively,
objects nested inside nested objects, into a `Resource` (`pres`, never a
plain `pdict`); and leaves all other scalar fields unchanged.  The fresh
`Resource` starts with its loaded flag `False`. -/
theorem C4_resource_wrapping (fields : List (String × JVal)) (r : PVal)
    (h : resourceOfJson fields = .ok r) :
    ∃ out, r = .pres out false ∧ FieldsInv fields out := by
  unfold resourceOfJson at h
  obtain ⟨out, hout, hmap⟩ := except_map_ok h
  exact ⟨out, hmap.symm,
    (wrap_establishes_inv (sizeOf fields)).1 fields out le_rfl hout⟩

/-- Witness for C4 at a concrete body exercising every branch: a date
field (with falsy value, stored as `None`), an object child, an array
child with one object and one scalar element, and a scalar field. -/
theorem C4_resource_wrapping_witness :
    resourceOfJson
      [("a_date", JVal.null), ("o", .jobj [("x", .jint 1)]),
       ("l", .jarr [.jobj [("y", .jint 2)], .jint 7]), ("s", .jstr "q")]
      = .ok (.pres
          [("a_date", PVal.null),
           ("o", .pres [("x", .pint 1)] false),
           ("l", .parr [.pres [("y", .pint 2)] false, .pint 7]),
           ("s", .pstr "q")] false)
    ∧ ∃ out, (PVal.pres
          [("a_date", PVal.null),
           ("o", .pres [("x", .pint 1)] false),
           ("l", .parr [.pres [("y", .pint 2)] false, .pint 7]),
           ("s", .pstr "q")] false) = .pres out false
        ∧ FieldsInv
            [("a_date", JVal.null), ("o", .jobj [("x", .jint 1)]),
             ("l", .jarr [.jobj [("y", .jint 2)], .jint 7]), ("s", .jstr "q")] out :=
  ⟨rfl, C4_resource_wrapping _ _ rfl⟩
